import Mathlib

set_option maxRecDepth 8000

/-!
Verification model of the glad arena allocator (glad.h).

The C source is shallowly embedded as follows.

Machine integers: `ptrdiff_t` values are modelled as `Int` (the executions of
interest never overflow a 64-bit signed integer), `uintptr_t` values as the
nonnegative residue modulo `2 ^ 64`, and `int flags` as `Nat` (only the two
flag bits matter).

Memory: each mmap-backed chunk is one entry of an association list from its
base address (a `Nat`) to a `Chunk` record holding the header fields
(`ch_next`, `ch_size`, `ch_offset`) and the data region, the latter as a
function from byte index to byte value (the region is zero-filled when
mapped).  A null `chunk*` or `arena*` is `Option.none`.  Dereferencing an
address that is not (or no longer) in the heap is a fault; faulting
executions, including failed `assert`s and non-termination of a chain walk,
are the `Option.none` result of each operation.

The operating system: results of the `open`/`mmap` pair inside `alloc_chunk`
are taken from an oracle list carried in the memory state, one entry per
`alloc_chunk` call that reaches the system calls.  `mmap` on Linux returns
page-aligned fresh addresses; theorems that depend on this say so explicitly
in their hypotheses, and concrete executions use page-aligned fresh bases.

Layout constants are those of x86-64 Linux, which the source targets: a
chunk header `struct chunk # chunk* ch_next; ptrdiff_t ch_size; ptrdiff_t
ch_offset; char ch_data[]; #` occupies 24 bytes and the flexible `ch_data`
member starts right after it, so a chunk's data region begins at its base
address plus 24; `sizeof(char) = 1`.
-/

/-- Flag bit `ZEROMEM 0x1` of glad.h. -/
def ZEROMEM : Nat := 0x1

/-- Flag bit `SOFTFAIL 0x10` of glad.h. -/
def SOFTFAIL : Nat := 0x10

/-- `DEFAULT_CHUNK_SIZE = (4096L*1024L)/(sizeof(char))` of glad.h, i.e. 4194304. -/
def DEFAULT_CHUNK_SIZE : Int := 4096 * 1024

/-- Size in bytes of the chunk header `struct chunk` on x86-64 Linux: an
8-byte pointer plus two 8-byte `ptrdiff_t` fields; the flexible array member
contributes no size. -/
def sizeofChunk : Int := 24

/-- `CHUNK_ALLOC_SIZE(X) = sizeof(chunk) + sizeof(char) * X` of glad.h. -/
def CHUNK_ALLOC_SIZE (X : Int) : Int := sizeofChunk + X

/-- Bitwise AND of two's-complement integers, as computed by the C `&` on
64-bit `ptrdiff_t` (no argument of interest overflows, so the width is
immaterial and the mathematical two's-complement AND is used: the negative
integer `-(n+1)` has the bit pattern of the complement of `n`).  The
mixed-sign cases use `m AND (NOT n) = m XOR (m AND n)`; the lemma
`intLand_eq_land` below shows agreement with Mathlib's `Int.land`. -/
def intLand : Int → Int → Int
  | .ofNat m, .ofNat n => .ofNat (m &&& n)
  | .ofNat m, .negSucc n => .ofNat (m ^^^ (m &&& n))
  | .negSucc m, .ofNat n => .ofNat (n ^^^ (n &&& m))
  | .negSucc m, .negSucc n => .negSucc (m ||| n)

/-- `ROUND_UP(val, size) = ((val + size - 1) & -size)` of glad.h. -/
def ROUND_UP (val size : Int) : Int := intLand (val + size - 1) (-size)

/-- One more than the largest `uintptr_t` value. -/
def UINTPTR_WIDTH : Int := 2 ^ 64

/-- Value of a C cast `(uintptr_t)x`: the nonnegative residue modulo `2^64`. -/
def uintptrCast (x : Int) : Int := x % UINTPTR_WIDTH

/-- A pointer value (for example a `void*` return value of the allocator)
as a machine address. -/
def ptrVal (x : Int) : Nat := (uintptrCast x).toNat

/-- Header fields and data region of one mapped chunk.  `ch_data j` is the
byte at index `j` of the data region, which starts at the chunk's base
address plus `sizeofChunk`. -/
structure Chunk where
  ch_next : Option Nat
  ch_size : Int
  ch_offset : Int
  ch_data : Nat → Nat

/-- The `struct arena` value held by the caller: head and tail chunk
pointers. -/
structure Arena where
  ar_head : Option Nat
  ar_tail : Option Nat
deriving DecidableEq, Repr

/-- Outcome of the `open("/dev/zero")` / `mmap` pair inside one
`alloc_chunk` call: the `open` can fail, the `mmap` can fail, or the map
succeeds at some base address. -/
inductive MmapResult where
  | fdFail
  | mapFail
  | ok (base : Nat)
deriving DecidableEq, Repr

/-- The mapped memory (an association list from chunk base address to chunk
content) together with the oracle of outstanding OS allocation outcomes. -/
structure Mem where
  heap : List (Nat × Chunk)
  oracle : List MmapResult

/-- Look up the chunk mapped at address `a`. -/
def heapFind : List (Nat × Chunk) → Nat → Option Chunk
  | [], _ => none
  | (b, c) :: t, a => if a = b then some c else heapFind t a

/-- Overwrite the chunk mapped at address `a` (no-op when `a` is unmapped). -/
def heapSet : List (Nat × Chunk) → Nat → Chunk → List (Nat × Chunk)
  | [], _, _ => []
  | (b, c) :: t, a, c2 => if b = a then (b, c2) :: heapSet t a c2 else (b, c) :: heapSet t a c2

/-- Unmap the chunk at address `a`. -/
def heapErase : List (Nat × Chunk) → Nat → List (Nat × Chunk)
  | [], _ => []
  | (b, c) :: t, a => if b = a then heapErase t a else (b, c) :: heapErase t a

/-- Embedding of `alloc_chunk(size, flags)`.  Returns `none` on a fault
(`assert(0)` on a non-softfail mmap failure, or an exhausted oracle),
`some (none, _)` where the C function returns the null chunk, and
`some (some base, _)` on success, with the new chunk mapped at `base`.
The mapped region is zero-filled by the OS, so the explicit `ZEROMEM`
memset does not change the modelled contents. -/
def alloc_chunk (size : Int) (flags : Nat) (m : Mem) : Option (Option Nat × Mem) :=
  if size = 0 then some (none, m)
  else
    let allocation_size := CHUNK_ALLOC_SIZE size
    if allocation_size < size then some (none, m)
    else
      match m.oracle with
      | [] => none
      | r :: rest =>
        match r with
        | .fdFail => some (none, { m with oracle := rest })
        | .mapFail =>
          if flags &&& SOFTFAIL ≠ 0 then some (none, { m with oracle := rest })
          else none
        | .ok base =>
          some (some base,
            { heap := (base,
                { ch_next := none, ch_size := size, ch_offset := 0,
                  ch_data := fun _ => 0 }) :: m.heap,
              oracle := rest })

/-- Embedding of `free_chunk(chunk)` (the version with the null check).
Reading `chunk->ch_size` of an address that is not mapped is a
use-after-free fault; `munmap` of a live chunk succeeds, removing it. -/
def free_chunk (ch : Option Nat) (m : Mem) : Option Mem :=
  match ch with
  | none => some m
  | some a =>
    match heapFind m.heap a with
    | none => none
    | some _ => some { m with heap := heapErase m.heap a }

/-- The chunk-scan loop of `arena_alloc`: walk the chain from `cursor`,
apply the alignment fixup to each visited chunk's `ch_offset`, and claim the
reservation from the first chunk with enough remaining capacity.
`some (some addr, _)` is the loop's `return start_addr`; `some (none, _)`
means the walk ran off the end of the chain (the C code then grows the
arena); `none` is a fault (dangling cursor, or a chain longer than the heap,
which only a cyclic chain produces).  `fuel` bounds the number of
iterations. -/
def arena_alloc_scan (fuel : Nat) (cursor : Option Nat) (alignment alloc_size : Int) (m : Mem) :
    Option (Option Nat × Mem) :=
  match fuel with
  | 0 => none
  | fuel + 1 =>
    match cursor with
    | none => some (none, m)
    | some cur =>
      match heapFind m.heap cur with
      | none => none
      | some c =>
        let current_address : Int := (cur : Int) + sizeofChunk + c.ch_offset
        let misalignment : Int := uintptrCast current_address % uintptrCast alignment
        let c1 := if misalignment ≠ 0
          then { c with ch_offset := c.ch_offset + (uintptrCast alignment - misalignment) }
          else c
        let m1 := if misalignment ≠ 0 then { m with heap := heapSet m.heap cur c1 } else m
        if alloc_size ≤ c1.ch_size - c1.ch_offset then
          some (some (ptrVal ((cur : Int) + sizeofChunk + c1.ch_offset)),
            { m1 with heap := heapSet m1.heap cur { c1 with ch_offset := c1.ch_offset + alloc_size } })
        else
          arena_alloc_scan fuel c1.ch_next alignment alloc_size m1

/-- The growth tail of `arena_alloc`: acquire a new chunk, align the start
of its data region, take the reservation from it and append it at the
arena's tail.  A null `ar_tail` here would make the C code dereference a
null pointer (a fault). -/
def arena_alloc_grow (ar : Arena) (alignment alloc_size chunk_size : Int) (flags : Nat) (m : Mem) :
    Option (Option Nat × Option Arena × Mem) :=
  match alloc_chunk chunk_size flags m with
  | none => none
  | some (none, m3) => some (none, some ar, m3)
  | some (some nb, m3) =>
    match heapFind m3.heap nb with
    | none => none
    | some c =>
      let current_address : Int := (nb : Int) + sizeofChunk + c.ch_offset
      let misalignment : Int := uintptrCast current_address % uintptrCast alignment
      let c1 := if misalignment ≠ 0
        then { c with ch_offset := c.ch_offset + (uintptrCast alignment - misalignment) }
        else c
      let start_addr := ptrVal ((nb : Int) + sizeofChunk + c1.ch_offset)
      let c2 := { c1 with ch_offset := c1.ch_offset + alloc_size }
      match ar.ar_tail with
      | none => none
      | some t =>
        match heapFind m3.heap t with
        | none => none
        | some tc =>
          some (some start_addr, some { ar with ar_tail := some nb },
            { m3 with heap := heapSet (heapSet m3.heap nb c2) t { tc with ch_next := some nb } })

/-- Scan-then-grow body of `arena_alloc`, shared by the empty-arena and
non-empty-arena entries. -/
def arena_alloc_core (ar : Arena) (alignment alloc_size chunk_size : Int) (flags : Nat) (m : Mem) :
    Option (Option Nat × Option Arena × Mem) :=
  match arena_alloc_scan (m.heap.length + 1) ar.ar_head alignment alloc_size m with
  | none => none
  | some (some addr, m2) => some (some addr, some ar, m2)
  | some (none, m2) => arena_alloc_grow ar alignment alloc_size chunk_size flags m2

/-- Embedding of `arena_alloc(arena, num_bytes, alignment, flags)` (the
alignment-aware version).  The result is `none` on a fault, otherwise
`some (r, arena1, m1)` where `r` is the returned pointer (`none` for the
null failure value) and `arena1`/`m1` are the arena value and memory after
the call. -/
def arena_alloc (arenaP : Option Arena) (num_bytes alignment : Int) (flags : Nat) (m : Mem) :
    Option (Option Nat × Option Arena × Mem) :=
  match arenaP with
  | none => some (none, none, m)
  | some ar =>
    if num_bytes = 0 ∨ alignment = 0 ∨ intLand alignment (alignment - 1) ≠ 0 then
      some (none, some ar, m)
    else
      let alloc_size := ROUND_UP num_bytes alignment
      let chunk_size := ROUND_UP alloc_size DEFAULT_CHUNK_SIZE
      match ar.ar_tail with
      | some _ => arena_alloc_core ar alignment alloc_size chunk_size flags m
      | none =>
        match ar.ar_head with
        | some _ => none
        | none =>
          match alloc_chunk chunk_size flags m with
          | none => none
          | some (none, m1) => some (none, some ar, m1)
          | some (some nh, m1) =>
            arena_alloc_core { ar_head := some nh, ar_tail := some nh }
              alignment alloc_size chunk_size flags m1

/-- Chain walk of `arena_get_size`, accumulating the sum of `ch_offset`. -/
def arena_get_size_loop (fuel : Nat) (cursor : Option Nat) (heap : List (Nat × Chunk)) (size : Int) :
    Option Int :=
  match fuel with
  | 0 => none
  | fuel + 1 =>
    match cursor with
    | none => some size
    | some a =>
      match heapFind heap a with
      | none => none
      | some c => arena_get_size_loop fuel c.ch_next heap (size + c.ch_offset)

/-- Embedding of `arena_get_size(arena)`. -/
def arena_get_size (arenaP : Option Arena) (m : Mem) : Option Int :=
  match arenaP with
  | none => some 0
  | some ar => arena_get_size_loop (m.heap.length + 1) ar.ar_head m.heap 0

/-- Effect of `memcpy(&dst[dstOff], &src[srcOff], count)` on modelled data
regions viewed as byte functions. -/
def memcpyData (dst : Nat → Nat) (dstOff : Int) (src : Nat → Nat) (srcOff count : Int) :
    Nat → Nat :=
  fun i => if dstOff ≤ (i : Int) ∧ (i : Int) < dstOff + count
    then src (((i : Int) - dstOff + srcOff).toNat)
    else dst i

/-- Chain walk of `arena_crop_and_coalesce`: copy each chunk's first
`ch_offset` data bytes into the chunk at `cropped` at the running offset,
then release the source chunk. -/
def arena_cac_loop (fuel : Nat) (cursor : Option Nat) (cropped : Nat) (curr_offset : Int) (m : Mem) :
    Option Mem :=
  match fuel with
  | 0 => none
  | fuel + 1 =>
    match cursor with
    | none => some m
    | some a =>
      match heapFind m.heap a with
      | none => none
      | some c =>
        match heapFind m.heap cropped with
        | none => none
        | some cr =>
          let cr1 := { cr with
            ch_data := memcpyData cr.ch_data curr_offset c.ch_data 0 c.ch_offset }
          let m1 := { m with heap := heapSet m.heap cropped cr1 }
          match free_chunk (some a) m1 with
          | none => none
          | some m2 => arena_cac_loop fuel c.ch_next cropped (curr_offset + c.ch_offset) m2

/-- Embedding of `arena_crop_and_coalesce(arena, flags)` (the version that
null-checks `cropped`).  On success the returned pointer is
`cropped->ch_data`, the start of the new chunk's data region. -/
def arena_crop_and_coalesce (arenaP : Option Arena) (flags : Nat) (m : Mem) :
    Option (Option Nat × Option Arena × Mem) :=
  match arenaP with
  | none => some (none, none, m)
  | some ar =>
    match arena_get_size (some ar) m with
    | none => none
    | some alloc_size =>
      match alloc_chunk alloc_size flags m with
      | none => none
      | some (none, m1) => some (none, some ar, m1)
      | some (some cropped, m1) =>
        match arena_cac_loop (m1.heap.length + 1) ar.ar_head cropped 0 m1 with
        | none => none
        | some m2 =>
          some (some (cropped + sizeofChunk.toNat),
            some { ar_head := some cropped, ar_tail := some cropped }, m2)

/-- Chain walk of `arena_clear`: zero each chunk's first `ch_size` data
bytes and reset its offset. -/
def arena_clear_loop (fuel : Nat) (cursor : Option Nat) (m : Mem) : Option Mem :=
  match fuel with
  | 0 => none
  | fuel + 1 =>
    match cursor with
    | none => some m
    | some a =>
      match heapFind m.heap a with
      | none => none
      | some c =>
        let c1 := { c with
          ch_offset := (0 : Int)
          ch_data := fun j => if (j : Int) < c.ch_size then 0 else c.ch_data j }
        arena_clear_loop fuel c.ch_next { m with heap := heapSet m.heap a c1 }

/-- Embedding of `arena_clear(arena)`. -/
def arena_clear (arenaP : Option Arena) (m : Mem) : Option Mem :=
  match arenaP with
  | none => some m
  | some ar => arena_clear_loop (m.heap.length + 1) ar.ar_head m

/-- Chain walk of `arena_reset`: zero each chunk's offset. -/
def arena_reset_loop (fuel : Nat) (cursor : Option Nat) (m : Mem) : Option Mem :=
  match fuel with
  | 0 => none
  | fuel + 1 =>
    match cursor with
    | none => some m
    | some a =>
      match heapFind m.heap a with
      | none => none
      | some c =>
        arena_reset_loop fuel c.ch_next
          { m with heap := heapSet m.heap a { c with ch_offset := 0 } }

/-- Embedding of `arena_reset(arena)`. -/
def arena_reset (arenaP : Option Arena) (m : Mem) : Option Mem :=
  match arenaP with
  | none => some m
  | some ar => arena_reset_loop (m.heap.length + 1) ar.ar_head m

/-- Chain walk of `arena_free`.  With `ZEROMEM` the C code memsets the whole
backing block, header included, before reading `cursor->ch_next` and calling
`free_chunk(prev)`: the zeroed header has a null `ch_next` and `ch_size` 0,
which the walk then uses (the model releases the whole chunk regardless of
the zeroed `ch_size`, as the partial `munmap` length is below the modelled
granularity of one chunk). -/
def arena_free_loop (fuel : Nat) (cursor : Option Nat) (flags : Nat) (m : Mem) : Option Mem :=
  match fuel with
  | 0 => none
  | fuel + 1 =>
    match cursor with
    | none => some m
    | some a =>
      match heapFind m.heap a with
      | none => none
      | some c =>
        let c1 := if flags &&& ZEROMEM ≠ 0
          then { ch_next := none, ch_size := 0, ch_offset := 0, ch_data := fun _ => 0 }
          else c
        let m1 := if flags &&& ZEROMEM ≠ 0 then { m with heap := heapSet m.heap a c1 } else m
        match free_chunk (some a) m1 with
        | none => none
        | some m2 => arena_free_loop fuel c1.ch_next flags m2

/-- Embedding of `arena_free(arena, flags)`.  The arena value itself is not
modified (the C function never writes `arena->ar_head` or `ar_tail`). -/
def arena_free (arenaP : Option Arena) (flags : Nat) (m : Mem) : Option Mem :=
  match arenaP with
  | none => some m
  | some ar => arena_free_loop (m.heap.length + 1) ar.ar_head flags m

/-- Main loop of `arena_copy`, duplicating the source chunks after the
head.  On a failed chunk acquisition it calls `arena_free` on the
destination built so far and returns; the destination arena value still
holds its (now dangling) head and tail pointers, exactly as in the C. -/
def arena_copy_loop (fuel : Nat) (src_cursor : Option Nat) (dst_cursor : Nat) (dst : Arena)
    (flags : Nat) (m : Mem) : Option (Arena × Mem) :=
  match fuel with
  | 0 => none
  | fuel + 1 =>
    match src_cursor with
    | none => some (dst, m)
    | some sa =>
      match heapFind m.heap sa with
      | none => none
      | some sc =>
        match alloc_chunk sc.ch_size flags m with
        | none => none
        | some (none, m1) =>
          match arena_free (some dst) flags m1 with
          | none => none
          | some m2 => some (dst, m2)
        | some (some nb, m1) =>
          match heapFind m1.heap nb with
          | none => none
          | some nc =>
            let nc1 := { nc with
              ch_offset := sc.ch_offset
              ch_size := sc.ch_size
              ch_data := memcpyData nc.ch_data 0 sc.ch_data 0 sc.ch_offset }
            let m2 := { m1 with heap := heapSet m1.heap nb nc1 }
            match heapFind m2.heap dst_cursor with
            | none => none
            | some dc =>
              arena_copy_loop fuel sc.ch_next nb { dst with ar_tail := some nb } flags
                { m2 with heap := heapSet m2.heap dst_cursor { dc with ch_next := some nb } }

/-- Embedding of `arena_copy(copy_dst, copy_src, flags)` (the version that
duplicates the head chunk before the loop).  The C code does not null-check
the head-chunk acquisition: when it fails, `dst_head->ch_offset = ...`
writes through a null pointer, a fault (`none`). -/
def arena_copy (copy_dst copy_src : Option Arena) (flags : Nat) (m : Mem) :
    Option (Option Arena × Mem) :=
  match copy_dst, copy_src with
  | none, _ => some (copy_dst, m)
  | some dst, none => some (some dst, m)
  | some dst, some src =>
    if src.ar_head = none ∨ src.ar_tail = none then some (some dst, m)
    else
      match src.ar_head with
      | none => some (some dst, m)
      | some sh =>
        match heapFind m.heap sh with
        | none => none
        | some shc =>
          match alloc_chunk shc.ch_size flags m with
          | none => none
          | some (none, _) => none
          | some (some hb, m1) =>
            match heapFind m1.heap hb with
            | none => none
            | some hc =>
              let hc1 := { hc with
                ch_offset := shc.ch_offset
                ch_size := shc.ch_size
                ch_data := memcpyData hc.ch_data 0 shc.ch_data 0 shc.ch_offset }
              match arena_copy_loop (m1.heap.length + 1) shc.ch_next hb
                { ar_head := some hb, ar_tail := some hb } flags
                { m1 with heap := heapSet m1.heap hb hc1 } with
              | none => none
              | some (dst2, m2) => some (some dst2, m2)

/-! Bit-level facts about `intLand` and `ROUND_UP`. -/

/-- The model's two's-complement AND agrees with Mathlib's `Int.land`. -/
theorem intLand_eq_land (x y : Int) : intLand x y = Int.land x y := by
  cases x with
  | ofNat m =>
    cases y with
    | ofNat n => rfl
    | negSucc n =>
      show (Int.ofNat (m ^^^ (m &&& n))) = Int.ofNat (m.ldiff n)
      refine congrArg _ (Nat.eq_of_testBit_eq fun i => ?_)
      rw [Nat.testBit_xor, Nat.testBit_land, Nat.testBit_ldiff]
      cases m.testBit i <;> cases n.testBit i <;> rfl
  | negSucc m =>
    cases y with
    | ofNat n =>
      show (Int.ofNat (n ^^^ (n &&& m))) = Int.ofNat (n.ldiff m)
      refine congrArg _ (Nat.eq_of_testBit_eq fun i => ?_)
      rw [Nat.testBit_xor, Nat.testBit_land, Nat.testBit_ldiff]
      cases n.testBit i <;> cases m.testBit i <;> rfl
    | negSucc n => rfl

theorem testBit_two_pow_sub_one (k i : Nat) : (2 ^ k - 1).testBit i = decide (i < k) := by
  induction k generalizing i with
  | zero => simp
  | succ k IH =>
    have hp : 2 ^ (k + 1) = 2 * 2 ^ k := by ring
    have hp1 : 1 ≤ 2 ^ k := Nat.one_le_two_pow
    cases i with
    | zero =>
      rw [Nat.testBit_zero]
      have : (2 ^ (k + 1) - 1) % 2 = 1 := by omega
      simp [this]
    | succ i =>
      rw [Nat.testBit_succ]
      have : (2 ^ (k + 1) - 1) / 2 = 2 ^ k - 1 := by omega
      rw [this, IH]
      simp [Nat.succ_lt_succ_iff]

theorem nat_land_pow2_pred (k : Nat) : 2 ^ k &&& (2 ^ k - 1) = 0 := by
  refine Nat.eq_of_testBit_eq fun i => ?_
  rw [Nat.testBit_land, testBit_two_pow_sub_one, Nat.zero_testBit]
  by_cases h : i = k
  · subst h; simp
  · rw [Nat.testBit_two_pow_of_ne (fun hh => h hh.symm)]; rfl

theorem nat_xor_and_mask (n k : Nat) : n ^^^ (n &&& (2 ^ k - 1)) = 2 ^ k * (n / 2 ^ k) := by
  have hrw : 2 ^ k * (n / 2 ^ k) = (n >>> k) <<< k := by
    rw [Nat.shiftRight_eq_div_pow, Nat.shiftLeft_eq]; ring
  rw [hrw]
  refine Nat.eq_of_testBit_eq fun i => ?_
  rw [Nat.testBit_xor, Nat.testBit_land, testBit_two_pow_sub_one,
    Nat.testBit_shiftLeft, Nat.testBit_shiftRight]
  by_cases h : i < k
  · have hd1 : decide (i < k) = true := by simp [h]
    have hd2 : decide (i ≥ k) = false := by simp; omega
    rw [hd1, hd2]
    cases n.testBit i <;> rfl
  · have hd1 : decide (i < k) = false := by simp [h]
    have hd2 : decide (i ≥ k) = true := by simp; omega
    have h3 : k + (i - k) = i := by omega
    rw [hd1, hd2, h3]
    cases n.testBit i <;> rfl

theorem nat_pow2_of_land_pred : ∀ m : Nat, m ≠ 0 → m &&& (m - 1) = 0 → ∃ k, m = 2 ^ k := by
  intro m
  induction m using Nat.strong_induction_on with
  | _ m IH =>
    intro hm h
    rcases Nat.even_or_odd m with ⟨q, hq⟩ | ⟨q, hq⟩
    · -- m = q + q with q ≠ 0
      have hq0 : q ≠ 0 := by omega
      have hdiv : m / 2 = q := by omega
      have hdiv1 : (m - 1) / 2 = q - 1 := by omega
      have hsub : q &&& (q - 1) = 0 := by
        refine Nat.eq_of_testBit_eq fun i => ?_
        have hb := congrArg (fun x => x.testBit (i + 1)) h
        simp only [Nat.testBit_land, Nat.zero_testBit] at hb ⊢
        rw [Nat.testBit_succ, Nat.testBit_succ, hdiv, hdiv1] at hb
        exact hb
      obtain ⟨k, hk⟩ := IH q (by omega) hq0 hsub
      exact ⟨k + 1, by rw [pow_succ]; omega⟩
    · -- m = 2 * q + 1
      by_cases hq0 : q = 0
      · exact ⟨0, by omega⟩
      · exfalso
        obtain ⟨j, hj⟩ : ∃ j, q.testBit j = true := by
          by_contra hc
          push_neg at hc
          have : q = 0 := Nat.eq_of_testBit_eq fun i => by
            rw [Nat.zero_testBit]
            exact Bool.not_eq_true _ ▸ (Bool.eq_false_iff.mpr (hc i))
          exact hq0 this
        have hdiv : m / 2 = q := by omega
        have hdiv1 : (m - 1) / 2 = q := by omega
        have hb := congrArg (fun x => x.testBit (j + 1)) h
        simp only [Nat.testBit_land, Nat.zero_testBit] at hb
        rw [Nat.testBit_succ, Nat.testBit_succ, hdiv, hdiv1, hj] at hb
        simp at hb

theorem two_pow_int_cast (k : Nat) : ((2 : Int) ^ k) = ((2 ^ k : Nat) : Int) := by
  push_cast; ring

theorem ofNat_eq_cast (n : Nat) : Int.ofNat n = (n : Int) := rfl

theorem intLand_ofNat_ofNat (m n : Nat) : intLand (m : Int) (n : Int) = ((m &&& n : Nat) : Int) :=
  rfl

theorem intLand_ofNat_negSucc (m n : Nat) :
    intLand (m : Int) (Int.negSucc n) = ((m ^^^ (m &&& n) : Nat) : Int) := rfl

theorem intLand_negSucc_negSucc (m n : Nat) :
    intLand (Int.negSucc m) (Int.negSucc n) = Int.negSucc (m ||| n) := rfl

/-- The power-of-two guard expression of `arena_alloc` accepts every power of
two. -/
theorem intLand_pow2_pred (k : Nat) : intLand ((2 : Int) ^ k) ((2 : Int) ^ k - 1) = 0 := by
  have hone : 1 ≤ 2 ^ k := Nat.one_le_two_pow
  have h2 : ((2 : Int) ^ k - 1) = (((2 ^ k - 1 : Nat)) : Int) := by
    rw [Nat.cast_sub hone]
    push_cast
    ring
  rw [h2, two_pow_int_cast, intLand_ofNat_ofNat, nat_land_pow2_pred]
  rfl

/-- Conversely, every nonzero value the guard expression accepts is a power
of two. -/
theorem pow2_of_intLand_pred {a : Int} (ha : a ≠ 0) (h : intLand a (a - 1) = 0) :
    ∃ k : Nat, a = 2 ^ k := by
  cases a with
  | ofNat m =>
    have hm : m ≠ 0 := by
      rintro rfl
      exact ha rfl
    rw [ofNat_eq_cast] at h ⊢
    have h2 : ((m : Int) - 1) = ((m - 1 : Nat) : Int) := by omega
    rw [h2, intLand_ofNat_ofNat] at h
    have h3 : m &&& (m - 1) = 0 := by exact_mod_cast h
    obtain ⟨k, hk⟩ := nat_pow2_of_land_pred m hm h3
    refine ⟨k, ?_⟩
    rw [hk, two_pow_int_cast]
  | negSucc n =>
    exfalso
    have h2 : (Int.negSucc n - 1) = Int.negSucc (n + 1) := by
      rw [Int.negSucc_eq, Int.negSucc_eq]; push_cast; ring
    rw [h2, intLand_negSucc_negSucc] at h
    exact Int.negSucc_ne_zero _ h

/-- Clearing the low `k` bits of a nonnegative integer floor-divides by
`2 ^ k` and multiplies back, which is what ANDing with `-2^k` does. -/
theorem intLand_ofNat_neg_pow2 (n k : Nat) :
    intLand ((n : Nat) : Int) (-((2 : Int) ^ k)) = ((2 ^ k * (n / 2 ^ k) : Nat) : Int) := by
  have hone : 1 ≤ 2 ^ k := Nat.one_le_two_pow
  have h1 : (-((2 : Int) ^ k)) = Int.negSucc (2 ^ k - 1) := by
    rw [Int.negSucc_eq, two_pow_int_cast, Nat.cast_sub hone]
    push_cast
    ring
  rw [h1, intLand_ofNat_negSucc, nat_xor_and_mask]

/-- `ROUND_UP` to a power of two of a positive value is at least that value
and positive. -/
theorem ROUND_UP_pow2_ge (val : Int) (k : Nat) (hv : 0 < val) :
    val ≤ ROUND_UP val (2 ^ k) ∧ 0 < ROUND_UP val (2 ^ k) := by
  have h2k : (0 : Int) < 2 ^ k := by positivity
  have harg : 0 ≤ val + 2 ^ k - 1 := by omega
  have hofnat : val + 2 ^ k - 1 = (((val + 2 ^ k - 1).toNat : Nat) : Int) :=
    (Int.toNat_of_nonneg harg).symm
  have hkey : ROUND_UP val (2 ^ k)
      = ((2 ^ k * ((val + 2 ^ k - 1).toNat / 2 ^ k) : Nat) : Int) := by
    have h := intLand_ofNat_neg_pow2 ((val + 2 ^ k - 1).toNat) k
    rw [← hofnat] at h
    rw [ROUND_UP]
    exact h
  have hXM : 2 ^ k * ((val + 2 ^ k - 1).toNat / 2 ^ k) + (val + 2 ^ k - 1).toNat % 2 ^ k
      = (val + 2 ^ k - 1).toNat := Nat.div_add_mod _ _
  have hmlt : ((val + 2 ^ k - 1).toNat) % 2 ^ k < 2 ^ k := Nat.mod_lt _ (by positivity)
  have htn : (((val + 2 ^ k - 1).toNat : Nat) : Int) = val + 2 ^ k - 1 :=
    Int.toNat_of_nonneg harg
  have h2kc : (((2 ^ k : Nat)) : Int) = (2 : Int) ^ k := (two_pow_int_cast k).symm
  rw [hkey]
  omega

theorem DEFAULT_CHUNK_SIZE_eq : DEFAULT_CHUNK_SIZE = (2 : Int) ^ 22 := by
  norm_num [DEFAULT_CHUNK_SIZE]

/-- Reducing a `uintptr_t` residue modulo a power of two dividing `2 ^ 64`
is the same as reducing the original integer. -/
theorem uintptrCast_mod_pow2 (x : Int) (k : Nat) (hk : k ≤ 64) :
    uintptrCast x % (2 : Int) ^ k = x % 2 ^ k :=
  Int.emod_emod_of_dvd x (pow_dvd_pow 2 hk)

theorem uintptrCast_pow2 (k : Nat) (hk : k ≤ 62) : uintptrCast ((2 : Int) ^ k) = 2 ^ k := by
  refine Int.emod_eq_of_lt (by positivity) ?_
  show (2 : Int) ^ k < UINTPTR_WIDTH
  have h1 : (2 : Int) ^ k ≤ 2 ^ 62 := pow_le_pow_right₀ (by norm_num) hk
  have h2 : (2 : Int) ^ 62 < 2 ^ 64 := by norm_num
  rw [UINTPTR_WIDTH]
  omega

/-- A machine address whose integer value is divisible by `2 ^ k`, `k ≤ 64`,
is divisible by `2 ^ k` as a `Nat`. -/
theorem ptrVal_mod_zero (x : Int) (k : Nat) (hk : k ≤ 64) (h : x % (2 : Int) ^ k = 0) :
    ptrVal x % 2 ^ k = 0 := by
  have hw : UINTPTR_WIDTH ≠ 0 := by norm_num [UINTPTR_WIDTH]
  have hy : 0 ≤ uintptrCast x := Int.emod_nonneg x hw
  have hyk : uintptrCast x % (2 : Int) ^ k = 0 := by
    rw [uintptrCast_mod_pow2 x k hk, h]
  have hcast : ((ptrVal x % 2 ^ k : Nat) : Int) = uintptrCast x % (2 : Int) ^ k := by
    rw [Int.natCast_mod, ptrVal, Int.toNat_of_nonneg hy]
    push_cast
    ring
  rw [hyk] at hcast
  exact_mod_cast hcast

/-- After the misalignment fixup `X + (A - X % A)` the address is a multiple
of `A`. -/
theorem fixup_add_aligned (X A : Int) : (X + (A - X % A)) % A = 0 := by
  have h : X + (A - X % A) = (X - X % A) + A * 1 := by ring
  rw [h, Int.add_mul_emod_self_left, Int.sub_emod, Int.emod_emod_of_dvd _ dvd_rfl]
  simp

/-! Heap and chain bookkeeping lemmas. -/

theorem heapFind_heapSet_ne (h : List (Nat × Chunk)) (a x : Nat) (c : Chunk) (hne : x ≠ a) :
    heapFind (heapSet h a c) x = heapFind h x := by
  induction h with
  | nil => rfl
  | cons p t IH =>
    obtain ⟨b, cb⟩ := p
    by_cases hba : b = a
    · subst hba
      have hxb : x ≠ b := hne
      simp [heapSet, heapFind, hxb, IH]
    · by_cases hxb : x = b
      · subst hxb
        simp [heapSet, heapFind, hba]
      · simp [heapSet, heapFind, hba, hxb, IH]

theorem heapFind_heapSet_self (h : List (Nat × Chunk)) (a : Nat) (c : Chunk) :
    heapFind (heapSet h a c) a = (heapFind h a).map (fun _ => c) := by
  induction h with
  | nil => rfl
  | cons p t IH =>
    obtain ⟨b, cb⟩ := p
    by_cases hba : b = a
    · subst hba
      simp [heapSet, heapFind]
    · have hab : a ≠ b := fun hh => hba hh.symm
      simp [heapSet, heapFind, hba, hab, IH]

theorem heapFind_heapErase_ne (h : List (Nat × Chunk)) (a x : Nat) (hne : x ≠ a) :
    heapFind (heapErase h a) x = heapFind h x := by
  induction h with
  | nil => rfl
  | cons p t IH =>
    obtain ⟨b, cb⟩ := p
    by_cases hba : b = a
    · subst hba
      have hxb : x ≠ b := hne
      simp [heapErase, heapFind, hxb, IH]
    · by_cases hxb : x = b
      · subst hxb
        simp [heapErase, heapFind, hba]
      · simp [heapErase, heapFind, hba, hxb, IH]

/-- A chunk chain: `isChain heap cur spine` holds when following `ch_next`
pointers from `cur` visits exactly the addresses of `spine`, all mapped,
ending in a null pointer. -/
def isChain (heap : List (Nat × Chunk)) : Option Nat → List Nat → Bool
  | none, [] => true
  | none, _ :: _ => false
  | some _, [] => false
  | some a, b :: rest =>
    (a == b) &&
      (match heapFind heap a with
        | none => false
        | some c => isChain heap c.ch_next rest)

theorem isChain_some_inv (heap : List (Nat × Chunk)) (a : Nat) (D : List Nat)
    (h : isChain heap (some a) D = true) :
    ∃ D1 c, D = a :: D1 ∧ heapFind heap a = some c ∧ isChain heap c.ch_next D1 = true := by
  cases D with
  | nil => simp [isChain] at h
  | cons b rest =>
    rw [isChain, Bool.and_eq_true] at h
    obtain ⟨hab, hrest⟩ := h
    have hab2 : a = b := by simpa using hab
    subst hab2
    cases hf : heapFind heap a with
    | none => rw [hf] at hrest; simp at hrest
    | some c =>
      rw [hf] at hrest
      exact ⟨rest, c, rfl, rfl, hrest⟩

theorem mem_of_getLast?_eq {l : List Nat} {a : Nat} (h : l.getLast? = some a) : a ∈ l := by
  induction l with
  | nil => simp at h
  | cons b t IH =>
    cases t with
    | nil => simp_all
    | cons b2 t2 =>
      rw [List.getLast?_cons_cons] at h
      exact List.mem_cons.mpr (Or.inr (IH h))

theorem isChain_mem_find (heap : List (Nat × Chunk)) :
    ∀ (D : List Nat) (cur : Option Nat), isChain heap cur D = true →
      ∀ d ∈ D, ∃ c, heapFind heap d = some c := by
  intro D
  induction D with
  | nil => intro cur _ d hd; simp at hd
  | cons b rest IH =>
    intro cur hch d hd
    cases cur with
    | none => simp [isChain] at hch
    | some a =>
      rw [isChain, Bool.and_eq_true] at hch
      obtain ⟨hab, hrest⟩ := hch
      have hab2 : a = b := by simpa using hab
      subst hab2
      cases hf : heapFind heap a with
      | none => rw [hf] at hrest; simp at hrest
      | some c =>
        rw [hf] at hrest
        rcases List.mem_cons.mp hd with hd1 | hd1
        · exact ⟨c, hd1 ▸ hf⟩
        · exact IH c.ch_next hrest d hd1

theorem isChain_congr (h1 h2 : List (Nat × Chunk)) :
    ∀ (D : List Nat), (∀ a ∈ D, heapFind h2 a = heapFind h1 a) →
      ∀ cur, isChain h2 cur D = isChain h1 cur D := by
  intro D
  induction D with
  | nil => intro _ cur; cases cur <;> rfl
  | cons b rest IH =>
    intro hpres cur
    cases cur with
    | none => rfl
    | some a =>
      rw [isChain, isChain]
      by_cases hab : a = b
      · subst hab
        rw [hpres a (by simp)]
        cases heapFind h1 a with
        | none => rfl
        | some c =>
          have := IH (fun x hx => hpres x (by simp [hx])) c.ch_next
          simp only [this]
      · have : (a == b) = false := by simpa using hab
        rw [this]
        simp

/-- Appending a freshly linked chunk at the end of a chain. -/
theorem isChain_snoc (h : List (Nat × Chunk)) (dc nb : Nat) (cdc cnb : Chunk)
    (hfind : heapFind h dc = some cdc) (hnext : cdc.ch_next = none)
    (hfnb : heapFind h nb = some cnb) (hnbnext : cnb.ch_next = none) (hdcnb : dc ≠ nb) :
    ∀ (D : List Nat) (cur : Option Nat),
      isChain h cur D = true → D.getLast? = some dc → D.Nodup → nb ∉ D →
      isChain (heapSet h dc { cdc with ch_next := some nb }) cur (D ++ [nb]) = true := by
  intro D
  induction D with
  | nil => intro cur _ hlast _ _; simp at hlast
  | cons d D1 IH =>
    intro cur hch hlast hnd hnb
    cases cur with
    | none => simp [isChain] at hch
    | some a =>
      rw [isChain, Bool.and_eq_true] at hch
      obtain ⟨hab, hrest⟩ := hch
      have hab2 : a = d := by simpa using hab
      subst hab2
      cases hf : heapFind h a with
      | none => rw [hf] at hrest; simp at hrest
      | some c =>
        rw [hf] at hrest
        cases D1 with
        | nil =>
          have hadc : a = dc := by simpa using hlast
          subst hadc
          have hc : c = cdc := by
            rw [hf] at hfind
            exact (Option.some.injEq _ _ ▸ hfind)
          subst hc
          show isChain _ (some a) (a :: [nb]) = true
          rw [isChain, Bool.and_eq_true]
          refine ⟨by simp, ?_⟩
          have hself : heapFind (heapSet h a { c with ch_next := some nb }) a
              = some { c with ch_next := some nb } := by
            rw [heapFind_heapSet_self, hf]
            rfl
          rw [hself]
          show isChain _ (some nb) [nb] = true
          rw [isChain, Bool.and_eq_true]
          refine ⟨by simp, ?_⟩
          have hnbne : nb ≠ a := fun hh => hdcnb hh.symm
          rw [heapFind_heapSet_ne h a nb _ hnbne, hfnb]
          show isChain _ cnb.ch_next [] = true
          rw [hnbnext]
          rfl
        | cons d2 D2 =>
          have hlast2 : (d2 :: D2).getLast? = some dc := by
            rw [← hlast, List.getLast?_cons_cons]
          have hadc : a ≠ dc := by
            intro hh
            subst hh
            exact (List.nodup_cons.mp hnd).1 (mem_of_getLast?_eq hlast2)
          show isChain _ (some a) (a :: ((d2 :: D2) ++ [nb])) = true
          rw [isChain, Bool.and_eq_true]
          refine ⟨by simp, ?_⟩
          rw [heapFind_heapSet_ne h dc a _ hadc, hf]
          refine IH c.ch_next hrest hlast2 (List.nodup_cons.mp hnd).2 ?_
          intro hh
          exact hnb (by simp [hh])

/-! Oracle bookkeeping and the frame property of the release loop. -/

/-- The base addresses a given oracle can hand out. -/
def oracleAddrs : List MmapResult → List Nat
  | [] => []
  | .ok b :: r => b :: oracleAddrs r
  | .fdFail :: r => oracleAddrs r
  | .mapFail :: r => oracleAddrs r

theorem oracleAddrs_sub_of_cons (r : MmapResult) (rest : List MmapResult) :
    ∀ b ∈ oracleAddrs rest, b ∈ oracleAddrs (r :: rest) := by
  intro b hb
  cases r <;> simp [oracleAddrs, hb]

theorem oracleAddrs_nodup_of_cons (r : MmapResult) (rest : List MmapResult)
    (h : (oracleAddrs (r :: rest)).Nodup) : (oracleAddrs rest).Nodup := by
  cases r with
  | ok b => exact (List.nodup_cons.mp h).2
  | fdFail => exact h
  | mapFail => exact h

/-- Exhaustive description of the non-faulting outcomes of `alloc_chunk`. -/
theorem alloc_chunk_spec (size : Int) (flags : Nat) (m : Mem) (res : Option Nat) (m1 : Mem)
    (h : alloc_chunk size flags m = some (res, m1)) :
    (res = none ∧ m1.heap = m.heap ∧
      (m1.oracle = m.oracle ∨ ∃ r, m.oracle = r :: m1.oracle)) ∨
    (∃ b rest, res = some b ∧ m.oracle = .ok b :: rest ∧
      m1 = { heap := (b, ⟨none, size, 0, fun _ => 0⟩) :: m.heap, oracle := rest }) := by
  rw [alloc_chunk] at h
  by_cases hsz : size = 0
  · rw [if_pos hsz] at h
    simp only [Option.some.injEq, Prod.mk.injEq] at h
    obtain ⟨rfl, rfl⟩ := h
    exact Or.inl ⟨rfl, rfl, Or.inl rfl⟩
  · rw [if_neg hsz] at h
    by_cases hov : CHUNK_ALLOC_SIZE size < size
    · rw [if_pos hov] at h
      simp only [Option.some.injEq, Prod.mk.injEq] at h
      obtain ⟨rfl, rfl⟩ := h
      exact Or.inl ⟨rfl, rfl, Or.inl rfl⟩
    · rw [if_neg hov] at h
      cases hor : m.oracle with
      | nil => rw [hor] at h; simp at h
      | cons r rest =>
        rw [hor] at h
        cases r with
        | fdFail =>
          simp only [Option.some.injEq, Prod.mk.injEq] at h
          obtain ⟨rfl, rfl⟩ := h
          exact Or.inl ⟨rfl, rfl, Or.inr ⟨.fdFail, rfl⟩⟩
        | mapFail =>
          by_cases hsf : flags &&& SOFTFAIL ≠ 0
          · simp only [if_pos hsf, Option.some.injEq, Prod.mk.injEq] at h
            obtain ⟨rfl, rfl⟩ := h
            exact Or.inl ⟨rfl, rfl, Or.inr ⟨.mapFail, rfl⟩⟩
          · simp only [if_neg hsf] at h
            simp at h
        | ok b =>
          simp only [Option.some.injEq, Prod.mk.injEq] at h
          obtain ⟨rfl, rfl⟩ := h
          exact Or.inr ⟨b, rest, rfl, rfl, rfl⟩

/-- Oracle soundness with respect to a protected address set `S`: every base
address the oracle can hand out is fresh (unmapped) and outside `S`, and no
address is handed out twice. -/
def OracleOk (m : Mem) (S : List Nat) : Prop :=
  (oracleAddrs m.oracle).Nodup ∧
  ∀ b ∈ oracleAddrs m.oracle, b ∉ S ∧ heapFind m.heap b = none

/-- The release loop of `arena_free` never touches chunks outside the chain
it is given. -/
theorem arena_free_loop_frame :
    ∀ (fuel : Nat) (cur : Option Nat) (flags : Nat) (m m2 : Mem) (D S : List Nat),
      isChain m.heap cur D = true → D.Nodup → (∀ d ∈ D, d ∉ S) →
      arena_free_loop fuel cur flags m = some m2 →
      ∀ a ∈ S, heapFind m2.heap a = heapFind m.heap a := by
  intro fuel
  induction fuel with
  | zero => intro cur flags m m2 D S _ _ _ hrun; simp [arena_free_loop] at hrun
  | succ f IH =>
    intro cur flags m m2 D S hch hnd hDS hrun
    cases cur with
    | none =>
      rw [arena_free_loop] at hrun
      simp only [Option.some.injEq] at hrun
      subst hrun
      intro a _
      rfl
    | some a0 =>
      obtain ⟨D1, c, hD, hf, hch1⟩ := isChain_some_inv m.heap a0 D hch
      subst hD
      have ha0S : a0 ∉ S := hDS a0 (by simp)
      have ha0D1 : a0 ∉ D1 := (List.nodup_cons.mp hnd).1
      rw [arena_free_loop] at hrun
      rw [hf] at hrun
      by_cases hz : flags &&& ZEROMEM ≠ 0
      · simp only [if_pos hz] at hrun
        set zc : Chunk := { ch_next := none, ch_size := 0, ch_offset := 0, ch_data := fun _ => 0 }
          with hzc
        set m1 : Mem := { m with heap := heapSet m.heap a0 zc } with hm1
        have hf1 : heapFind m1.heap a0 = some zc := by
          rw [hm1]
          show heapFind (heapSet m.heap a0 zc) a0 = some zc
          rw [heapFind_heapSet_self, hf]
          rfl
        have hfc : free_chunk (some a0) m1 = some { m1 with heap := heapErase m1.heap a0 } := by
          rw [free_chunk, hf1]
        rw [hfc] at hrun
        simp only at hrun
        have hpres := IH none flags { m1 with heap := heapErase m1.heap a0 } m2 [] S
          rfl (by simp) (by simp) hrun
        intro a haS
        have hane : a ≠ a0 := fun hh => ha0S (hh ▸ haS)
        rw [hpres a haS]
        show heapFind (heapErase m1.heap a0) a = heapFind m.heap a
        rw [heapFind_heapErase_ne _ _ _ hane, hm1]
        show heapFind (heapSet m.heap a0 zc) a = heapFind m.heap a
        rw [heapFind_heapSet_ne _ _ _ _ hane]
      · simp only [if_neg hz] at hrun
        have hfc : free_chunk (some a0) m = some { m with heap := heapErase m.heap a0 } := by
          rw [free_chunk, hf]
        rw [hfc] at hrun
        simp only at hrun
        have hchmid : isChain (heapErase m.heap a0) c.ch_next D1 = true := by
          have hcongr := isChain_congr m.heap (heapErase m.heap a0) D1 (fun d hd => by
            have hdne : d ≠ a0 := fun hh => ha0D1 (hh ▸ hd)
            rw [heapFind_heapErase_ne _ _ _ hdne]) c.ch_next
          rw [hcongr]
          exact hch1
        have hpres := IH c.ch_next flags { m with heap := heapErase m.heap a0 } m2 D1 S
          hchmid (List.nodup_cons.mp hnd).2 (fun d hd => hDS d (by simp [hd])) hrun
        intro a haS
        have hane : a ≠ a0 := fun hh => ha0S (hh ▸ haS)
        rw [hpres a haS]
        show heapFind (heapErase m.heap a0) a = heapFind m.heap a
        rw [heapFind_heapErase_ne _ _ _ hane]

theorem heapFind_cons_self (h : List (Nat × Chunk)) (b : Nat) (c : Chunk) :
    heapFind ((b, c) :: h) b = some c := by
  simp [heapFind]

theorem heapFind_cons_ne (h : List (Nat × Chunk)) (b x : Nat) (c : Chunk) (hne : x ≠ b) :
    heapFind ((b, c) :: h) x = heapFind h x := by
  simp [heapFind, hne]

/-- The duplication loop of `arena_copy` never touches the protected
addresses `S` (in particular the source chain), given that the OS hands out
only fresh addresses outside `S`. -/
theorem arena_copy_loop_frame :
    ∀ (fuel : Nat) (src_cur : Option Nat) (dcur : Nat) (dst : Arena) (flags : Nat) (m : Mem)
      (dst2 : Arena) (m2 : Mem) (S D : List Nat),
      OracleOk m S →
      isChain m.heap dst.ar_head D = true → D.Nodup → (∀ d ∈ D, d ∉ S) →
      D.getLast? = some dcur →
      (∃ cdc, heapFind m.heap dcur = some cdc ∧ cdc.ch_next = none) →
      arena_copy_loop fuel src_cur dcur dst flags m = some (dst2, m2) →
      ∀ a ∈ S, heapFind m2.heap a = heapFind m.heap a := by
  intro fuel
  induction fuel with
  | zero =>
    intro src_cur dcur dst flags m dst2 m2 S D _ _ _ _ _ _ hrun
    simp [arena_copy_loop] at hrun
  | succ f IH =>
    intro src_cur dcur dst flags m dst2 m2 S D hOr hch hnd hDS hlast hdc hrun
    cases src_cur with
    | none =>
      rw [arena_copy_loop] at hrun
      simp only [Option.some.injEq, Prod.mk.injEq] at hrun
      obtain ⟨_, rfl⟩ := hrun
      intro a _
      rfl
    | some sa =>
      rw [arena_copy_loop] at hrun
      cases hfsa : heapFind m.heap sa with
      | none => rw [hfsa] at hrun; simp at hrun
      | some sc =>
        rw [hfsa] at hrun
        simp only [] at hrun
        cases hac : alloc_chunk sc.ch_size flags m with
        | none => rw [hac] at hrun; simp at hrun
        | some p =>
          obtain ⟨acres, m1⟩ := p
          rw [hac] at hrun
          cases acres with
          | none =>
            simp only [] at hrun
            rcases alloc_chunk_spec _ _ _ _ _ hac with ⟨_, hheap, _⟩ | ⟨b, rest, hbad, _, _⟩
            · cases haf : arena_free (some dst) flags m1 with
              | none => rw [haf] at hrun; simp at hrun
              | some mf =>
                rw [haf] at hrun
                simp only [Option.some.injEq, Prod.mk.injEq] at hrun
                obtain ⟨_, rfl⟩ := hrun
                simp only [arena_free] at haf
                have hch1 : isChain m1.heap dst.ar_head D = true := by
                  rw [hheap]; exact hch
                have hfr := arena_free_loop_frame _ dst.ar_head flags m1 mf D S hch1 hnd hDS haf
                intro a haS
                rw [hfr a haS, hheap]
            · exact absurd hbad (by simp)
          | some nb =>
            rcases alloc_chunk_spec _ _ _ _ _ hac with ⟨hbad, _, _⟩ | ⟨b, rest, hsb, horc, hm1⟩
            · exact absurd hbad (by simp)
            · have hnbb : nb = b := by simpa using hsb
              subst hnbb
              subst hm1
              simp only [] at hrun
              obtain ⟨hNodupO, hOrmem⟩ := hOr
              have hnbO : nb ∈ oracleAddrs m.oracle := by rw [horc]; simp [oracleAddrs]
              have hnbS : nb ∉ S := (hOrmem nb hnbO).1
              have hnbFresh : heapFind m.heap nb = none := (hOrmem nb hnbO).2
              have hrestNodup : (oracleAddrs rest).Nodup := by
                have := hNodupO
                rw [horc] at this
                exact (List.nodup_cons.mp this).2
              have hnbNotRest : nb ∉ oracleAddrs rest := by
                have := hNodupO
                rw [horc] at this
                exact (List.nodup_cons.mp this).1
              obtain ⟨cdc, hfdc, hdcnext⟩ := hdc
              have hdcD : dcur ∈ D := mem_of_getLast?_eq hlast
              have hdcS : dcur ∉ S := hDS dcur hdcD
              have hdcnb : dcur ≠ nb := by
                intro hh
                rw [hh, hnbFresh] at hfdc
                exact Option.noConfusion hfdc
              have hfnb1 : heapFind ((nb, (⟨none, sc.ch_size, 0, fun _ => 0⟩ : Chunk)) :: m.heap) nb
                  = some ⟨none, sc.ch_size, 0, fun _ => 0⟩ := heapFind_cons_self _ _ _
              rw [hfnb1] at hrun
              simp only at hrun
              -- name the updated records and heaps
              set cF : Chunk := ⟨none, sc.ch_size, 0, fun _ => 0⟩ with hcF
              set nc1 : Chunk :=
                { cF with
                  ch_offset := sc.ch_offset
                  ch_size := sc.ch_size
                  ch_data := memcpyData cF.ch_data 0 sc.ch_data 0 sc.ch_offset } with hnc1
              set hp1 : List (Nat × Chunk) := heapSet ((nb, cF) :: m.heap) nb nc1 with hhp1
              have hfdc1 : heapFind hp1 dcur = some cdc := by
                rw [hhp1, heapFind_heapSet_ne _ _ _ _ hdcnb,
                  heapFind_cons_ne _ _ _ _ hdcnb, hfdc]
              rw [hfdc1] at hrun
              simp only at hrun
              -- the state passed to the recursive call
              set m3 : Mem :=
                { heap := heapSet hp1 dcur { cdc with ch_next := some nb }, oracle := rest }
                with hm3
              -- facts needed for the induction hypothesis
              have hfind_m3 : ∀ x, x ≠ dcur → x ≠ nb → heapFind m3.heap x = heapFind m.heap x := by
                intro x hx1 hx2
                rw [hm3]
                show heapFind (heapSet hp1 dcur _) x = heapFind m.heap x
                rw [heapFind_heapSet_ne _ _ _ _ hx1, hhp1,
                  heapFind_heapSet_ne _ _ _ _ hx2, heapFind_cons_ne _ _ _ _ hx2]
              have hOr3 : OracleOk m3 S := by
                refine ⟨hrestNodup, ?_⟩
                intro b2 hb2
                have hb2O : b2 ∈ oracleAddrs m.oracle := by
                  rw [horc]; exact List.mem_cons.mpr (Or.inr hb2)
                have hb2fresh : heapFind m.heap b2 = none := (hOrmem b2 hb2O).2
                refine ⟨(hOrmem b2 hb2O).1, ?_⟩
                have hb2nb : b2 ≠ nb := fun hh => hnbNotRest (hh ▸ hb2)
                have hb2dc : b2 ≠ dcur := by
                  intro hh
                  rw [hh, hfdc] at hb2fresh
                  exact Option.noConfusion hb2fresh
                rw [hfind_m3 b2 hb2dc hb2nb]
                exact hb2fresh
              have hDnb : nb ∉ D := by
                intro hh
                obtain ⟨cx, hcx⟩ := isChain_mem_find m.heap D dst.ar_head hch nb hh
                rw [hnbFresh] at hcx
                exact Option.noConfusion hcx
              have hch_hp1 : isChain hp1 dst.ar_head D = true := by
                have hcongr := isChain_congr m.heap hp1 D (fun d hd => by
                  have hdnb : d ≠ nb := fun hh => hDnb (hh ▸ hd)
                  rw [hhp1, heapFind_heapSet_ne _ _ _ _ hdnb,
                    heapFind_cons_ne _ _ _ _ hdnb]) dst.ar_head
                rw [hcongr]
                exact hch
              have hfnb_hp1 : heapFind hp1 nb = some nc1 := by
                rw [hhp1, heapFind_heapSet_self, hfnb1]
                rfl
              have hch3 : isChain m3.heap dst.ar_head (D ++ [nb]) = true := by
                rw [hm3]
                exact isChain_snoc hp1 dcur nb cdc nc1 hfdc1 hdcnext hfnb_hp1 rfl hdcnb
                  D dst.ar_head hch_hp1 hlast hnd hDnb
              have hnd3 : (D ++ [nb]).Nodup := by
                rw [List.nodup_append]
                refine ⟨hnd, List.nodup_singleton nb, ?_⟩
                intro d hd hdm
                have hdnb : d = nb := by simpa using hdm
                exact hDnb (hdnb ▸ hd)
              have hDS3 : ∀ d ∈ D ++ [nb], d ∉ S := by
                intro d hd
                rcases List.mem_append.mp hd with hd1 | hd1
                · exact hDS d hd1
                · have : d = nb := by simpa using hd1
                  exact this ▸ hnbS
              have hlast3 : (D ++ [nb]).getLast? = some nb := List.getLast?_concat _
              have hdc3 : ∃ c3, heapFind m3.heap nb = some c3 ∧ c3.ch_next = none := by
                refine ⟨nc1, ?_, rfl⟩
                rw [hm3]
                show heapFind (heapSet hp1 dcur _) nb = some nc1
                rw [heapFind_heapSet_ne _ _ _ _ (fun hh => hdcnb hh.symm)]
                exact hfnb_hp1
              have hpres := IH sc.ch_next nb { dst with ar_tail := some nb } flags m3 dst2 m2 S
                (D ++ [nb]) hOr3 hch3 hnd3 hDS3 hlast3 hdc3 hrun
              intro a haS
              have hanb : a ≠ nb := fun hh => hnbS (hh ▸ haS)
              have hadc : a ≠ dcur := fun hh => hdcS (hh ▸ haS)
              rw [hpres a haS, hfind_m3 a hadc hanb]

/-- C10: `Copy` never mutates the source arena.  For every terminating run
of `arena_copy` (successful or rolled back after a failed mid-copy chunk
acquisition), provided the OS oracle hands out only fresh page bases that
are not part of the source chain, every chunk of the source chain is mapped
afterwards exactly as before — same header fields (`ch_next`, `ch_size`,
`ch_offset`) and same data bytes — and the source chain is still intact.
The source arena value itself is passed by value in the model and cannot be
written by `arena_copy`. -/
theorem c10_arena_copy_preserves_source (dst src : Arena) (flags : Nat) (m : Mem)
    (S : List Nat) (res : Option Arena) (m2 : Mem)
    (hchain : isChain m.heap src.ar_head S = true)
    (hOr : OracleOk m S)
    (h : arena_copy (some dst) (some src) flags m = some (res, m2)) :
    (∀ a ∈ S, heapFind m2.heap a = heapFind m.heap a) ∧
    isChain m2.heap src.ar_head S = true := by
  rw [arena_copy] at h
  by_cases hguard : src.ar_head = none ∨ src.ar_tail = none
  · rw [if_pos hguard] at h
    simp only [Option.some.injEq, Prod.mk.injEq] at h
    obtain ⟨_, rfl⟩ := h
    exact ⟨fun a _ => rfl, hchain⟩
  · rw [if_neg hguard] at h
    push_neg at hguard
    obtain ⟨hhead, htail⟩ := hguard
    cases hsh : src.ar_head with
    | none => exact absurd hsh hhead
    | some sh =>
      rw [hsh] at h hchain
      simp only [] at h
      obtain ⟨S1, shc, hS, hfsh, hch1⟩ := isChain_some_inv m.heap sh S hchain
      rw [hfsh] at h
      simp only [] at h
      cases hac : alloc_chunk shc.ch_size flags m with
      | none => rw [hac] at h; simp at h
      | some p =>
        obtain ⟨acres, m1⟩ := p
        rw [hac] at h
        cases acres with
        | none => simp only [] at h; exact absurd h (by simp)
        | some hb =>
          simp only [] at h
          rcases alloc_chunk_spec _ _ _ _ _ hac with ⟨hbad, _, _⟩ | ⟨b, rest, hsb, horc, hm1⟩
          · exact absurd hbad (by simp)
          · have hhbb : hb = b := by simpa using hsb
            subst hhbb
            subst hm1
            simp only [] at h
            obtain ⟨hNodupO, hOrmem⟩ := hOr
            have hhbO : hb ∈ oracleAddrs m.oracle := by rw [horc]; simp [oracleAddrs]
            have hhbS : hb ∉ S := (hOrmem hb hhbO).1
            have hhbFresh : heapFind m.heap hb = none := (hOrmem hb hhbO).2
            have hrestNodup : (oracleAddrs rest).Nodup := by
              have := hNodupO
              rw [horc] at this
              exact (List.nodup_cons.mp this).2
            have hhbNotRest : hb ∉ oracleAddrs rest := by
              have := hNodupO
              rw [horc] at this
              exact (List.nodup_cons.mp this).1
            have hfhb1 : heapFind ((hb, (⟨none, shc.ch_size, 0, fun _ => 0⟩ : Chunk)) :: m.heap) hb
                = some ⟨none, shc.ch_size, 0, fun _ => 0⟩ := heapFind_cons_self _ _ _
            rw [hfhb1] at h
            simp only [] at h
            set cF : Chunk := ⟨none, shc.ch_size, 0, fun _ => 0⟩ with hcF
            set hc1 : Chunk :=
              { cF with
                ch_offset := shc.ch_offset
                ch_size := shc.ch_size
                ch_data := memcpyData cF.ch_data 0 shc.ch_data 0 shc.ch_offset } with hhc1
            set hp1 : List (Nat × Chunk) := heapSet ((hb, cF) :: m.heap) hb hc1 with hhp1
            set m1b : Mem := { heap := hp1, oracle := rest } with hm1b
            have hfind_m1b : ∀ x, x ≠ hb → heapFind m1b.heap x = heapFind m.heap x := by
              intro x hx
              rw [hm1b]
              show heapFind hp1 x = heapFind m.heap x
              rw [hhp1, heapFind_heapSet_ne _ _ _ _ hx, heapFind_cons_ne _ _ _ _ hx]
            have hOr1 : OracleOk m1b S := by
              refine ⟨hrestNodup, ?_⟩
              intro b2 hb2
              have hb2O : b2 ∈ oracleAddrs m.oracle := by
                rw [horc]; exact List.mem_cons.mpr (Or.inr hb2)
              have hb2hb : b2 ≠ hb := fun hh => hhbNotRest (hh ▸ hb2)
              refine ⟨(hOrmem b2 hb2O).1, ?_⟩
              rw [hfind_m1b b2 hb2hb]
              exact (hOrmem b2 hb2O).2
            have hfhb_hp1 : heapFind m1b.heap hb = some hc1 := by
              rw [hm1b]
              show heapFind hp1 hb = some hc1
              rw [hhp1, heapFind_heapSet_self, hfhb1]
              rfl
            have hch_d : isChain m1b.heap (some hb) [hb] = true := by
              rw [isChain, Bool.and_eq_true]
              refine ⟨by simp, ?_⟩
              rw [hfhb_hp1]
              rfl
            cases hloop : arena_copy_loop (((hb, cF) :: m.heap).length + 1) shc.ch_next hb
                { ar_head := some hb, ar_tail := some hb } flags m1b with
            | none => rw [hloop] at h; simp at h
            | some q =>
              obtain ⟨dst2, mf⟩ := q
              rw [hloop] at h
              simp only [Option.some.injEq, Prod.mk.injEq] at h
              obtain ⟨_, rfl⟩ := h
              have hfr := arena_copy_loop_frame (((hb, cF) :: m.heap).length + 1) shc.ch_next hb
                { ar_head := some hb, ar_tail := some hb } flags m1b dst2 mf S [hb]
                hOr1 hch_d (List.nodup_singleton hb) (by
                  intro d hd
                  have : d = hb := by simpa using hd
                  exact this ▸ hhbS)
                rfl ⟨hc1, hfhb_hp1, rfl⟩ hloop
              have hpres : ∀ a ∈ S, heapFind mf.heap a = heapFind m.heap a := by
                intro a haS
                have hahb : a ≠ hb := fun hh => hhbS (hh ▸ haS)
                rw [hfr a haS, hfind_m1b a hahb]
              refine ⟨hpres, ?_⟩
              have hcongr := isChain_congr m.heap mf.heap S (fun a ha => hpres a ha) (some sh)
              rw [hcongr]
              exact hchain

/-! Alignment of returned addresses (claim C2). -/

theorem aligned_case_zero (X : Int) (k : Nat) (hk : k ≤ 62)
    (h : uintptrCast X % uintptrCast ((2 : Int) ^ k) = 0) : X % (2 : Int) ^ k = 0 := by
  rw [uintptrCast_pow2 k hk, uintptrCast_mod_pow2 X k (by omega)] at h
  exact h

theorem aligned_case_fix (X : Int) (k : Nat) (hk : k ≤ 62) :
    (X + (uintptrCast ((2 : Int) ^ k) - uintptrCast X % uintptrCast ((2 : Int) ^ k)))
      % (2 : Int) ^ k = 0 := by
  rw [uintptrCast_pow2 k hk, uintptrCast_mod_pow2 X k (by omega)]
  exact fixup_add_aligned X ((2 : Int) ^ k)

/-- Any address the chunk-scan loop returns is aligned: the fixup step makes
the handed-out offset aligned before the reservation is taken. -/
theorem arena_alloc_scan_aligned (k : Nat) (hk : k ≤ 62) :
    ∀ (fuel : Nat) (cursor : Option Nat) (alloc_size : Int) (m : Mem) (addr : Nat) (m2 : Mem),
      arena_alloc_scan fuel cursor ((2 : Int) ^ k) alloc_size m = some (some addr, m2) →
      addr % 2 ^ k = 0 := by
  intro fuel
  induction fuel with
  | zero => intro cursor alloc_size m addr m2 h; simp [arena_alloc_scan] at h
  | succ f IH =>
    intro cursor alloc_size m addr m2 h
    cases cursor with
    | none => rw [arena_alloc_scan] at h; simp at h
    | some cur =>
      rw [arena_alloc_scan] at h
      cases hf : heapFind m.heap cur with
      | none => rw [hf] at h; simp at h
      | some c =>
        rw [hf] at h
        simp only [] at h
        by_cases hmis :
            uintptrCast ((cur : Int) + sizeofChunk + c.ch_offset)
              % uintptrCast ((2 : Int) ^ k) ≠ 0
        · simp only [if_pos hmis] at h
          by_cases hfit : alloc_size ≤ c.ch_size
              - (c.ch_offset + (uintptrCast ((2 : Int) ^ k)
                - uintptrCast ((cur : Int) + sizeofChunk + c.ch_offset)
                  % uintptrCast ((2 : Int) ^ k)))
          · simp only [if_pos hfit, Option.some.injEq, Prod.mk.injEq] at h
            obtain ⟨h1, _⟩ := h
            subst h1
            apply ptrVal_mod_zero _ k (by omega)
            rw [show ((cur : Int) + sizeofChunk
                + (c.ch_offset + (uintptrCast ((2 : Int) ^ k)
                  - uintptrCast ((cur : Int) + sizeofChunk + c.ch_offset)
                    % uintptrCast ((2 : Int) ^ k))))
              = (((cur : Int) + sizeofChunk + c.ch_offset)
                + (uintptrCast ((2 : Int) ^ k)
                  - uintptrCast ((cur : Int) + sizeofChunk + c.ch_offset)
                    % uintptrCast ((2 : Int) ^ k))) from by ring]
            exact aligned_case_fix _ k hk
          · simp only [if_neg hfit] at h
            exact IH _ _ _ _ _ h
        · simp only [if_neg hmis] at h
          by_cases hfit : alloc_size ≤ c.ch_size - c.ch_offset
          · simp only [if_pos hfit, Option.some.injEq, Prod.mk.injEq] at h
            obtain ⟨h1, _⟩ := h
            subst h1
            apply ptrVal_mod_zero _ k (by omega)
            exact aligned_case_zero _ k hk (not_not.mp hmis)
          · simp only [if_neg hfit] at h
            exact IH _ _ _ _ _ h

/-- The growth path of `arena_alloc` also aligns the start of the fresh
chunk's data region before handing it out. -/
theorem arena_alloc_grow_aligned (k : Nat) (hk : k ≤ 62) (ar : Arena)
    (alloc_size chunk_size : Int) (flags : Nat) (m : Mem) (addr : Nat)
    (arP2 : Option Arena) (m2 : Mem)
    (h : arena_alloc_grow ar ((2 : Int) ^ k) alloc_size chunk_size flags m
      = some (some addr, arP2, m2)) :
    addr % 2 ^ k = 0 := by
  rw [arena_alloc_grow] at h
  cases hac : alloc_chunk chunk_size flags m with
  | none => rw [hac] at h; simp at h
  | some p =>
    obtain ⟨res, m3⟩ := p
    rw [hac] at h
    cases res with
    | none =>
      simp only [Option.some.injEq, Prod.mk.injEq] at h
      exact absurd h.1 (by simp)
    | some nb =>
      simp only [] at h
      cases hfnb : heapFind m3.heap nb with
      | none => rw [hfnb] at h; simp at h
      | some c =>
        rw [hfnb] at h
        simp only [] at h
        cases htail : ar.ar_tail with
        | none => rw [htail] at h; simp at h
        | some t =>
          rw [htail] at h
          simp only [] at h
          cases hft : heapFind m3.heap t with
          | none => rw [hft] at h; simp at h
          | some tc =>
            rw [hft] at h
            simp only [Option.some.injEq, Prod.mk.injEq] at h
            obtain ⟨h1, _⟩ := h
            by_cases hmis :
                uintptrCast ((nb : Int) + sizeofChunk + c.ch_offset)
                  % uintptrCast ((2 : Int) ^ k) ≠ 0
            · rw [if_pos hmis] at h1
              subst h1
              apply ptrVal_mod_zero _ k (by omega)
              rw [show ((nb : Int) + sizeofChunk
                  + (c.ch_offset + (uintptrCast ((2 : Int) ^ k)
                    - uintptrCast ((nb : Int) + sizeofChunk + c.ch_offset)
                      % uintptrCast ((2 : Int) ^ k))))
                = (((nb : Int) + sizeofChunk + c.ch_offset)
                  + (uintptrCast ((2 : Int) ^ k)
                    - uintptrCast ((nb : Int) + sizeofChunk + c.ch_offset)
                      % uintptrCast ((2 : Int) ^ k))) from by ring]
              exact aligned_case_fix _ k hk
            · rw [if_neg hmis] at h1
              subst h1
              apply ptrVal_mod_zero _ k (by omega)
              exact aligned_case_zero _ k hk (not_not.mp hmis)

theorem arena_alloc_core_aligned (k : Nat) (hk : k ≤ 62) (ar : Arena)
    (alloc_size chunk_size : Int) (flags : Nat) (m : Mem) (addr : Nat)
    (arP2 : Option Arena) (m2 : Mem)
    (h : arena_alloc_core ar ((2 : Int) ^ k) alloc_size chunk_size flags m
      = some (some addr, arP2, m2)) :
    addr % 2 ^ k = 0 := by
  rw [arena_alloc_core] at h
  cases hscan : arena_alloc_scan (m.heap.length + 1) ar.ar_head ((2 : Int) ^ k) alloc_size m with
  | none => rw [hscan] at h; simp at h
  | some p =>
    obtain ⟨r, m2s⟩ := p
    rw [hscan] at h
    cases r with
    | some a2 =>
      simp only [Option.some.injEq, Prod.mk.injEq] at h
      obtain ⟨h1, _⟩ := h
      subst h1
      exact arena_alloc_scan_aligned k hk _ _ _ _ _ _ hscan
    | none =>
      simp only [] at h
      exact arena_alloc_grow_aligned k hk _ _ _ _ _ _ _ _ h

/-- C2: whenever `arena_alloc` succeeds with a positive size and a
power-of-two alignment (any `ptrdiff_t`-representable one), the returned
address is a multiple of the alignment — both when served from a chunk of
the existing chain and when served from a freshly acquired chunk. -/
theorem c2_arena_alloc_returns_aligned_address (arv : Arena) (num_bytes alignment : Int)
    (k flags : Nat) (m : Mem) (addr : Nat) (arP2 : Option Arena) (m2 : Mem)
    (hnb : 0 < num_bytes) (halign : alignment = 2 ^ k) (hk : k ≤ 62)
    (h : arena_alloc (some arv) num_bytes alignment flags m = some (some addr, arP2, m2)) :
    addr % alignment.toNat = 0 := by
  subst halign
  have htn : ((2 : Int) ^ k).toNat = 2 ^ k := by
    rw [two_pow_int_cast]
    rfl
  rw [htn]
  rw [arena_alloc] at h
  have hguard : ¬(num_bytes = 0 ∨ (2 : Int) ^ k = 0
      ∨ intLand ((2 : Int) ^ k) ((2 : Int) ^ k - 1) ≠ 0) := by
    push_neg
    refine ⟨by omega, by positivity, ?_⟩
    rw [intLand_pow2_pred]
  rw [if_neg hguard] at h
  simp only [] at h
  cases htail : arv.ar_tail with
  | some t =>
    rw [htail] at h
    simp only [] at h
    exact arena_alloc_core_aligned k hk _ _ _ _ _ _ _ _ h
  | none =>
    rw [htail] at h
    simp only [] at h
    cases hhead : arv.ar_head with
    | some t2 => rw [hhead] at h; simp at h
    | none =>
      rw [hhead] at h
      simp only [] at h
      cases hac : alloc_chunk
          (ROUND_UP (ROUND_UP num_bytes ((2 : Int) ^ k)) DEFAULT_CHUNK_SIZE) flags m with
      | none => rw [hac] at h; simp at h
      | some p =>
        obtain ⟨res, m1⟩ := p
        rw [hac] at h
        cases res with
        | none =>
          simp only [Option.some.injEq, Prod.mk.injEq] at h
          exact absurd h.1 (by simp)
        | some nh =>
          simp only [] at h
          exact arena_alloc_core_aligned k hk _ _ _ _ _ _ _ _ h

/-! Size of the chunk acquired on growth (claim C6, amended). -/

/-- When the growth path of `arena_alloc` succeeds, the chunk appended at
the tail has exactly the size `chunk_size` that was passed down, namely the
reservation rounded up to the default chunk granularity. -/
theorem arena_alloc_grow_tail_size (ar : Arena) (alignment alloc_size chunk_size : Int)
    (flags : Nat) (m : Mem) (addr : Nat) (ar2 : Arena) (m2 : Mem)
    (h : arena_alloc_grow ar alignment alloc_size chunk_size flags m
      = some (some addr, some ar2, m2)) :
    ∃ nt, ar2.ar_tail = some nt
      ∧ (heapFind m2.heap nt).map Chunk.ch_size = some chunk_size := by
  rw [arena_alloc_grow] at h
  cases hac : alloc_chunk chunk_size flags m with
  | none => rw [hac] at h; simp at h
  | some p =>
    obtain ⟨res, m3⟩ := p
    rw [hac] at h
    cases res with
    | none =>
      simp only [Option.some.injEq, Prod.mk.injEq] at h
      exact absurd h.1 (by simp)
    | some nb =>
      simp only [] at h
      rcases alloc_chunk_spec _ _ _ _ _ hac with ⟨hbad, _, _⟩ | ⟨b, rest, hsb, horc, hm3⟩
      · exact absurd hbad (by simp)
      · have hnbb : nb = b := by simpa using hsb
        subst hnbb
        subst hm3
        simp only [] at h
        rw [heapFind_cons_self] at h
        simp only [] at h
        cases htail : ar.ar_tail with
        | none => rw [htail] at h; simp at h
        | some t =>
          rw [htail] at h
          simp only [] at h
          cases hft : heapFind ((nb, (⟨none, chunk_size, 0, fun _ => 0⟩ : Chunk)) :: m.heap) t with
          | none => rw [hft] at h; simp at h
          | some tc =>
            rw [hft] at h
            simp only [Option.some.injEq, Prod.mk.injEq] at h
            obtain ⟨_, har2, hm2⟩ := h
            refine ⟨nb, by rw [← har2], ?_⟩
            rw [← hm2]
            by_cases htnb : t = nb
            · subst htnb
              have htc : tc = (⟨none, chunk_size, 0, fun _ => 0⟩ : Chunk) := by
                rw [heapFind_cons_self] at hft
                exact (Option.some.injEq _ _ ▸ hft).symm
              show (heapFind (heapSet (heapSet _ t _) t _) t).map Chunk.ch_size = some chunk_size
              rw [heapFind_heapSet_self, heapFind_heapSet_self, heapFind_cons_self]
              simp only [Option.map_some']
              rw [htc]
            · show (heapFind (heapSet (heapSet _ nb _) t _) nb).map Chunk.ch_size = some chunk_size
              rw [heapFind_heapSet_ne _ _ _ _ (fun hh => htnb hh.symm), heapFind_heapSet_self,
                heapFind_cons_self]
              simp only [Option.map_some']
              rw [show ∀ cc : Chunk, Chunk.ch_size cc = cc.ch_size from fun _ => rfl]
              simp only [apply_ite Chunk.ch_size]
              simp

/-- If the growth step returns the null failure value, the arena value is
returned unchanged. -/
theorem arena_alloc_grow_none (ar : Arena) (alignment alloc_size chunk_size : Int)
    (flags : Nat) (m : Mem) (arP2 : Option Arena) (m2 : Mem)
    (h : arena_alloc_grow ar alignment alloc_size chunk_size flags m
      = some (none, arP2, m2)) :
    arP2 = some ar := by
  rw [arena_alloc_grow] at h
  cases hac : alloc_chunk chunk_size flags m with
  | none => rw [hac] at h; simp at h
  | some p =>
    obtain ⟨res, m3⟩ := p
    rw [hac] at h
    cases res with
    | none =>
      simp only [Option.some.injEq, Prod.mk.injEq] at h
      exact h.2.1.symm
    | some nb =>
      simp only [] at h
      cases hfnb : heapFind m3.heap nb with
      | none => rw [hfnb] at h; simp at h
      | some c =>
        rw [hfnb] at h
        simp only [] at h
        cases htail : ar.ar_tail with
        | none => rw [htail] at h; simp at h
        | some t =>
          rw [htail] at h
          simp only [] at h
          cases hft : heapFind m3.heap t with
          | none => rw [hft] at h; simp at h
          | some tc =>
            rw [hft] at h
            simp only [Option.some.injEq, Prod.mk.injEq] at h
            exact absurd h.1 (by simp)

theorem arena_alloc_core_growth_size (ar : Arena) (alignment alloc_size chunk_size : Int)
    (flags : Nat) (m : Mem) (r : Option Nat) (ar2 : Arena) (m2 : Mem)
    (h : arena_alloc_core ar alignment alloc_size chunk_size flags m = some (r, some ar2, m2))
    (hne : ar2.ar_tail ≠ ar.ar_tail) :
    ∃ nt, ar2.ar_tail = some nt
      ∧ (heapFind m2.heap nt).map Chunk.ch_size = some chunk_size := by
  rw [arena_alloc_core] at h
  cases hscan : arena_alloc_scan (m.heap.length + 1) ar.ar_head alignment alloc_size m with
  | none => rw [hscan] at h; simp at h
  | some p =>
    obtain ⟨rs, m2s⟩ := p
    rw [hscan] at h
    cases rs with
    | some a2 =>
      simp only [Option.some.injEq, Prod.mk.injEq] at h
      obtain ⟨_, har, _⟩ := h
      have : ar = ar2 := by simpa using har
      exact absurd (this ▸ rfl) hne
    | none =>
      simp only [] at h
      cases r with
      | none =>
        have := arena_alloc_grow_none _ _ _ _ _ _ _ _ h
        have har : ar2 = ar := by simpa using this
        exact absurd (har ▸ rfl) hne
      | some addr => exact arena_alloc_grow_tail_size _ _ _ _ _ _ _ _ _ h

/-- C6 (amended): when a non-empty arena must grow, the freshly appended
tail chunk's size is the reservation rounded up to the default chunk
granularity `DEFAULT_CHUNK_SIZE` — hence at least the reservation size, but
not in general twice the reservation size. -/
theorem c6_growth_chunk_size_granularity (arv : Arena) (num_bytes alignment : Int)
    (k flags : Nat) (m : Mem) (r : Option Nat) (ar2 : Arena) (m2 : Mem) (t0 : Nat)
    (hnb : 0 < num_bytes) (halign : alignment = 2 ^ k)
    (htail0 : arv.ar_tail = some t0)
    (h : arena_alloc (some arv) num_bytes alignment flags m = some (r, some ar2, m2))
    (hne : ar2.ar_tail ≠ some t0) :
    ∃ nt, ar2.ar_tail = some nt
      ∧ (heapFind m2.heap nt).map Chunk.ch_size
          = some (ROUND_UP (ROUND_UP num_bytes alignment) DEFAULT_CHUNK_SIZE)
      ∧ ROUND_UP num_bytes alignment
          ≤ ROUND_UP (ROUND_UP num_bytes alignment) DEFAULT_CHUNK_SIZE := by
  subst halign
  rw [arena_alloc] at h
  have hguard : ¬(num_bytes = 0 ∨ (2 : Int) ^ k = 0
      ∨ intLand ((2 : Int) ^ k) ((2 : Int) ^ k - 1) ≠ 0) := by
    push_neg
    refine ⟨by omega, by positivity, ?_⟩
    rw [intLand_pow2_pred]
  rw [if_neg hguard] at h
  simp only [] at h
  rw [htail0] at h
  simp only [] at h
  have hne2 : ar2.ar_tail ≠ arv.ar_tail := by rw [htail0]; exact hne
  obtain ⟨nt, hnt, hsize⟩ := arena_alloc_core_growth_size _ _ _ _ _ _ _ _ _ h hne2
  have halloc_pos : 0 < ROUND_UP num_bytes ((2 : Int) ^ k) :=
    (ROUND_UP_pow2_ge num_bytes k hnb).2
  have hge : ROUND_UP num_bytes ((2 : Int) ^ k)
      ≤ ROUND_UP (ROUND_UP num_bytes ((2 : Int) ^ k)) DEFAULT_CHUNK_SIZE := by
    rw [DEFAULT_CHUNK_SIZE_eq]
    exact (ROUND_UP_pow2_ge _ 22 halloc_pos).1
  exact ⟨nt, hnt, hsize, hge⟩

/-- C4 (amended): an absent arena, a zero `num_bytes`, or a zero or
non-power-of-two alignment makes `arena_alloc` return the null failure
value with the arena value and the memory completely unchanged.  (The C
guard tests `!num_bytes`, so only `num_bytes == 0` — not every
non-positive `num_bytes` — is rejected.) -/
theorem c4_invalid_args_fail_without_mutation (arenaP : Option Arena)
    (num_bytes alignment : Int) (flags : Nat) (m : Mem)
    (h : arenaP = none ∨ num_bytes = 0 ∨ alignment = 0 ∨ ∀ j : Nat, alignment ≠ 2 ^ j) :
    arena_alloc arenaP num_bytes alignment flags m = some (none, arenaP, m) := by
  cases arenaP with
  | none => rfl
  | some ar =>
    rw [arena_alloc]
    have hguard : num_bytes = 0 ∨ alignment = 0 ∨ intLand alignment (alignment - 1) ≠ 0 := by
      rcases h with h | h | h | h
      · exact absurd h (by simp)
      · exact Or.inl h
      · exact Or.inr (Or.inl h)
      · by_cases ha0 : alignment = 0
        · exact Or.inr (Or.inl ha0)
        · refine Or.inr (Or.inr ?_)
          intro hland
          obtain ⟨j, hj⟩ := pow2_of_intLand_pred ha0 hland
          exact h j hj
    rw [if_pos hguard]

/-- C5 (amended): `arena_free` on a never-used (empty) arena terminates
without a fault and leaves memory unchanged, and `arena_clear`,
`arena_reset` and `arena_free` all treat an absent (null) arena argument as
a no-op. -/
theorem c5_free_empty_and_null_noop (flags : Nat) (m : Mem) :
    arena_free (some ⟨none, none⟩) flags m = some m ∧
    arena_free none flags m = some m ∧
    arena_clear none m = some m ∧
    arena_reset none m = some m :=
  ⟨rfl, rfl, rfl, rfl⟩

/-- C9: on an arena whose used size is 0 — no chunks, or chunks that are
all fully reset — `arena_crop_and_coalesce` returns the null failure value
(the zero-size chunk acquisition fails before touching the oracle) and the
arena value, the chunk chain and the whole memory are left unchanged. -/
theorem c9_crop_empty_arena_fails_unchanged (ar : Arena) (flags : Nat) (m : Mem)
    (h : arena_get_size (some ar) m = some 0) :
    arena_crop_and_coalesce (some ar) flags m = some (none, some ar, m) := by
  rw [arena_crop_and_coalesce, h]
  rfl

/-! Concrete executions that settle the code-level claims. -/

/-- C1: `arena_crop_and_coalesce` never stores the copied byte count into
the new chunk's `ch_offset`.  On an arena holding one chunk with 8 live
bytes, the call succeeds — single chunk, returned pointer at the start of
its data — but `arena_get_size` afterwards is 0 instead of the 8 it was
before the call. -/
theorem c1_crop_and_coalesce_used_size_bug :
    arena_get_size (some ⟨some 4096, some 4096⟩)
      ⟨[(4096, ⟨none, 4194304, 8, fun _ => 0⟩)], [.ok 8388608]⟩ = some 8 ∧
    ((arena_crop_and_coalesce (some ⟨some 4096, some 4096⟩) 0
        ⟨[(4096, ⟨none, 4194304, 8, fun _ => 0⟩)], [.ok 8388608]⟩).map
      (fun r => (r.1, r.2.1, arena_get_size r.2.1 r.2.2)))
      = some (some 8388632, some ⟨some 8388608, some 8388608⟩, some 0) ∧
    (8 : Int) ≠ 0 :=
  ⟨rfl, rfl, by decide⟩

/-- C3: the alignment fixup of `arena_alloc` advances the offset of a chunk
that is then skipped, past its capacity.  From an empty arena, allocating
the full default chunk (alignment 1) and then 1 byte with alignment 16
leaves the first chunk with `ch_offset` 4194312 > `ch_size` 4194304, with
page-aligned mmap bases 4096 and 8392704. -/
theorem c3_offset_exceeds_capacity_bug :
    ((arena_alloc (some ⟨none, none⟩) 4194304 1 0 ⟨[], [.ok 4096, .ok 8392704]⟩).bind
      (fun r1 => (arena_alloc r1.2.1 1 16 0 r1.2.2).map
        (fun r2 => (heapFind r2.2.2.heap 4096).map (fun c => (c.ch_offset, c.ch_size)))))
      = some (some (4194312, 4194304)) ∧
    ¬ ((4194312 : Int) ≤ 4194304) :=
  ⟨rfl, by decide⟩

/-- C4 counterexample: `num_bytes = -1` is not rejected by the guard
(`!num_bytes` only tests zero); on a non-empty arena the call succeeds,
returning address 4120, although the claim requires the failure value for
every non-positive `num_bytes`. -/
theorem c4_negative_num_bytes_counterexample :
    ((arena_alloc (some ⟨some 4096, some 4096⟩) (-1) 8 0
        ⟨[(4096, ⟨none, 4194304, 0, fun _ => 0⟩)], []⟩).map
      (fun r => (r.1, r.2.1, (heapFind r.2.2.heap 4096).map
        (fun c => (c.ch_next, c.ch_size, c.ch_offset)))))
      = some (some 4120, some ⟨some 4096, some 4096⟩, some (none, 4194304, 0)) ∧
    ¬ ((0 : Int) < -1) :=
  ⟨rfl, by decide⟩

/-- C5 counterexample: `arena_free` leaves `ar_head`/`ar_tail` dangling, so
a second `arena_free` on the same arena value walks unmapped memory — a
use-after-free fault. -/
theorem c5_double_free_faults_counterexample :
    arena_free (some ⟨some 4096, some 4096⟩) 0 ⟨[(4096, ⟨none, 64, 0, fun _ => 0⟩)], []⟩
      = some ⟨[], []⟩ ∧
    arena_free (some ⟨some 4096, some 4096⟩) 0 ⟨[], []⟩ = none :=
  ⟨rfl, rfl⟩

/-- C6 counterexample: growing for a reservation of 3145728 bytes
(alignment 8) appends a chunk of `ROUND_UP(3145728, DEFAULT_CHUNK_SIZE)` =
4194304 bytes, which is smaller than twice the reservation. -/
theorem c6_growth_not_twice_reservation_counterexample :
    ((arena_alloc (some ⟨some 4096, some 4096⟩) 3145728 8 0
        ⟨[(4096, ⟨none, 4194304, 4194304, fun _ => 0⟩)], [.ok 8392704]⟩).map
      (fun r => (r.1, (r.2.1).map Arena.ar_tail,
        (heapFind r.2.2.heap 8392704).map Chunk.ch_size)))
      = some (some 8392728, some (some 8392704), some 4194304) ∧
    ROUND_UP 3145728 8 = 3145728 ∧
    ¬ (2 * 3145728 ≤ (4194304 : Int)) :=
  ⟨rfl, by decide, by decide⟩

/-- C7: `arena_copy` does not null-check the head-chunk acquisition; when
the first `alloc_chunk` soft-fails, the C code writes
`dst_head->ch_offset` through a null pointer — a fault — instead of
releasing and leaving the destination in a safe empty state. -/
theorem c7_copy_first_chunk_failure_faults :
    arena_copy (some ⟨none, none⟩) (some ⟨some 4096, some 4096⟩) SOFTFAIL
      ⟨[(4096, ⟨none, 64, 8, fun _ => 0⟩)], [.mapFail]⟩ = none :=
  rfl

/-- C8: a failed soft-fail growth still mutates caller-visible state: the
scan's alignment fixup bumps the full chunk's offset from 4194304 to
4194312, so `arena_get_size` differs before and after the failed call. -/
theorem c8_failed_growth_changes_used_size_bug :
    arena_get_size (some ⟨some 4096, some 4096⟩)
      ⟨[(4096, ⟨none, 4194304, 4194304, fun _ => 0⟩)], [.mapFail]⟩ = some 4194304 ∧
    ((arena_alloc (some ⟨some 4096, some 4096⟩) 1 16 SOFTFAIL
        ⟨[(4096, ⟨none, 4194304, 4194304, fun _ => 0⟩)], [.mapFail]⟩).map
      (fun r => (r.1, arena_get_size r.2.1 r.2.2)))
      = some (none, some 4194312) ∧
    (4194304 : Int) ≠ 4194312 :=
  ⟨rfl, rfl, by decide⟩

/-! Concrete witnesses for the theorems with hypotheses. -/

/-- Witness for C2 at a concrete input: allocating 24 bytes with alignment
16 from an empty arena returns address 4128, a multiple of 16 (the chunk's
data region starts at the misaligned 4120 and the fixup advances it by 8). -/
theorem c2_arena_alloc_returns_aligned_address_witness :
    (0 : Int) < 24 ∧ (16 : Int) = 2 ^ 4 ∧ 4 ≤ 62 ∧
    arena_alloc (some ⟨none, none⟩) 24 16 0 ⟨[], [.ok 4096]⟩
      = some (some 4128, some ⟨some 4096, some 4096⟩,
          ⟨[(4096, ⟨none, 4194304, 40, fun _ => 0⟩)], []⟩) ∧
    4128 % (16 : Int).toNat = 0 :=
  ⟨by decide, by decide, by decide, rfl,
    c2_arena_alloc_returns_aligned_address ⟨none, none⟩ 24 16 4 0 ⟨[], [.ok 4096]⟩ 4128
      (some ⟨some 4096, some 4096⟩) ⟨[(4096, ⟨none, 4194304, 40, fun _ => 0⟩)], []⟩
      (by decide) (by decide) (by decide) rfl⟩

/-- Witness for the amended C4 at a concrete input: alignment 0 is
rejected and nothing changes. -/
theorem c4_invalid_args_witness :
    ((some (⟨none, none⟩ : Arena) = (none : Option Arena)) ∨ (5 : Int) = 0 ∨ (0 : Int) = 0
      ∨ ∀ j : Nat, (0 : Int) ≠ 2 ^ j) ∧
    arena_alloc (some ⟨none, none⟩) 5 0 0 ⟨[], []⟩
      = some (none, some ⟨none, none⟩, ⟨[], []⟩) :=
  ⟨Or.inr (Or.inr (Or.inl rfl)),
    c4_invalid_args_fail_without_mutation (some ⟨none, none⟩) 5 0 0 ⟨[], []⟩
      (Or.inr (Or.inr (Or.inl rfl)))⟩

/-- Witness for the amended C6 at a concrete input: the growth for a
3145728-byte reservation appends a tail chunk of exactly
`ROUND_UP(3145728, DEFAULT_CHUNK_SIZE)` bytes. -/
theorem c6_growth_chunk_size_granularity_witness :
    (0 : Int) < 3145728 ∧ (8 : Int) = 2 ^ 3 ∧
    arena_alloc (some ⟨some 4096, some 4096⟩) 3145728 8 0
        ⟨[(4096, ⟨none, 4194304, 4194304, fun _ => 0⟩)], [.ok 8392704]⟩
      = some (some 8392728, some ⟨some 4096, some 8392704⟩,
          ⟨[(8392704, ⟨none, 4194304, 3145728, fun _ => 0⟩),
            (4096, ⟨some 8392704, 4194304, 4194304, fun _ => 0⟩)], []⟩) ∧
    (∃ nt, (⟨some 4096, some 8392704⟩ : Arena).ar_tail = some nt
      ∧ (heapFind [(8392704, ⟨none, 4194304, 3145728, fun _ => 0⟩),
            (4096, ⟨some 8392704, 4194304, 4194304, fun _ => 0⟩)] nt).map Chunk.ch_size
          = some (ROUND_UP (ROUND_UP 3145728 8) DEFAULT_CHUNK_SIZE)
      ∧ ROUND_UP 3145728 8 ≤ ROUND_UP (ROUND_UP 3145728 8) DEFAULT_CHUNK_SIZE) :=
  ⟨by decide, by decide, rfl,
    c6_growth_chunk_size_granularity ⟨some 4096, some 4096⟩ 3145728 8 3 0
      ⟨[(4096, ⟨none, 4194304, 4194304, fun _ => 0⟩)], [.ok 8392704]⟩
      (some 8392728) ⟨some 4096, some 8392704⟩
      ⟨[(8392704, ⟨none, 4194304, 3145728, fun _ => 0⟩),
        (4096, ⟨some 8392704, 4194304, 4194304, fun _ => 0⟩)], []⟩ 4096
      (by decide) (by decide) rfl rfl (by decide)⟩

/-- Witness for C9 at a concrete input: a one-chunk arena with offset 0 has
used size 0, and the coalesce call fails leaving everything unchanged. -/
theorem c9_crop_empty_arena_witness :
    arena_get_size (some ⟨some 4096, some 4096⟩)
      ⟨[(4096, ⟨none, 64, 0, fun _ => 0⟩)], []⟩ = some 0 ∧
    arena_crop_and_coalesce (some ⟨some 4096, some 4096⟩) 0
        ⟨[(4096, ⟨none, 64, 0, fun _ => 0⟩)], []⟩
      = some (none, some ⟨some 4096, some 4096⟩,
          ⟨[(4096, ⟨none, 64, 0, fun _ => 0⟩)], []⟩) :=
  ⟨rfl, c9_crop_empty_arena_fails_unchanged ⟨some 4096, some 4096⟩ 0
    ⟨[(4096, ⟨none, 64, 0, fun _ => 0⟩)], []⟩ rfl⟩

/-- Witness for C10 at a concrete input: copying a one-chunk source with a
fresh oracle address leaves the source chunk's mapping untouched and its
chain intact. -/
theorem c10_arena_copy_preserves_source_witness :
    isChain [(4096, (⟨none, 64, 8, fun _ => 0⟩ : Chunk))] (some 4096) [4096] = true ∧
    heapFind
      (match arena_copy (some ⟨none, none⟩) (some ⟨some 4096, some 4096⟩) 0
          ⟨[(4096, ⟨none, 64, 8, fun _ => 0⟩)], [.ok 70000]⟩ with
        | some r => r.2.heap
        | none => []) 4096
      = heapFind [(4096, (⟨none, 64, 8, fun _ => 0⟩ : Chunk))] 4096 ∧
    isChain
      (match arena_copy (some ⟨none, none⟩) (some ⟨some 4096, some 4096⟩) 0
          ⟨[(4096, ⟨none, 64, 8, fun _ => 0⟩)], [.ok 70000]⟩ with
        | some r => r.2.heap
        | none => []) (some 4096) [4096] = true := by
  have hrun : arena_copy (some ⟨none, none⟩) (some ⟨some 4096, some 4096⟩) 0
      ⟨[(4096, ⟨none, 64, 8, fun _ => 0⟩)], [.ok 70000]⟩
      = some (some ⟨some 70000, some 70000⟩,
          ⟨[(70000, ⟨none, 64, 8,
              memcpyData (fun _ => 0) 0 (fun _ => 0) 0 8⟩),
            (4096, ⟨none, 64, 8, fun _ => 0⟩)], []⟩) := rfl
  have hmain := c10_arena_copy_preserves_source ⟨none, none⟩ ⟨some 4096, some 4096⟩ 0
    ⟨[(4096, ⟨none, 64, 8, fun _ => 0⟩)], [.ok 70000]⟩ [4096]
    (some ⟨some 70000, some 70000⟩)
    ⟨[(70000, ⟨none, 64, 8, memcpyData (fun _ => 0) 0 (fun _ => 0) 0 8⟩),
      (4096, ⟨none, 64, 8, fun _ => 0⟩)], []⟩
    (by decide) ⟨by decide, by
      intro b hb
      have hb2 : b = 70000 := by simpa [oracleAddrs] using hb
      subst hb2
      exact ⟨by decide, rfl⟩⟩ hrun
  refine ⟨by decide, ?_, ?_⟩
  · rw [hrun]
    exact hmain.1 4096 (by simp)
  · rw [hrun]
    exact hmain.2
